import Mathlib

/-!
Verification of the emulator subsystem of the LyaCosmoParams repository
(`p1d_emulator/py/gp_emulator.py` and `p1d_emulator/py/linear_emulator.py`).

Numeric values are modelled as rationals.  External numeric routines that the
code calls but does not define — the trained GP posterior (`self.gp.predict`),
`np.sqrt`, `np.exp`, `np.log`, the scipy per-coefficient interpolators and the
Delaunay `find_simplex` hull test — are abstract function parameters of the
embedded operations.  Python lists / 1-d numpy arrays are `List ℚ`, 2-d arrays
are `List (List ℚ)`, a model dictionary is a total map `String → ℚ` (the
claims under study always supply every key of `paramList`), and text that the
methods print is returned as an explicit log (`List String`) so that the
advisory-warning paths are visible in the model.
-/

namespace LyaEmu

/-- Python `min` over a nonempty collection; 0 on the empty list (which the
Python builtin would reject). -/
def listMin : List ℚ → ℚ
  | [] => 0
  | x :: xs => xs.foldl min x

/-- Python `max` over a nonempty collection; 0 on the empty list. -/
def listMax : List ℚ → ℚ
  | [] => 0
  | x :: xs => xs.foldl max x

/-- Column `j` of a 2-d grid, as read by `paramGrid[:,aa]`. -/
def colVals (grid : List (List ℚ)) (j : ℕ) : List ℚ :=
  grid.map (fun r => r.getD j 0)

/-- Embeds `GPEmulator._get_param_limits`: for each column of the parameter
grid, record `(min, max)` of that column. -/
def get_param_limits (paramGrid : List (List ℚ)) : List (ℚ × ℚ) :=
  (List.range (paramGrid.headD []).length).map fun aa =>
    (listMin (colVals paramGrid aa), listMax (colVals paramGrid aa))

/-- Embeds `GPEmulator._rescale_params`: elementwise
`(params[aa] - paramLimits[aa,0]) / (paramLimits[aa,1] - paramLimits[aa,0])`.
The Python loop mutates `params` in place; the functional image of the loop is
a map over the zipped lists.  There is no conditional in the source: the
division is performed unconditionally. -/
def rescale_params (params : List ℚ) (paramLimits : List (ℚ × ℚ)) : List ℚ :=
  (params.zip paramLimits).map fun pl => (pl.1 - pl.2.1) / (pl.2.2 - pl.2.1)

section ListLemmas

variable {α β γ : Type*}

theorem foldl_min_le_init (l : List ℚ) (a : ℚ) : l.foldl min a ≤ a := by
  induction l generalizing a with
  | nil => exact le_rfl
  | cons x xs ih => exact le_trans (ih (min a x)) (min_le_left a x)

theorem foldl_min_le_mem {l : List ℚ} {x : ℚ} (hx : x ∈ l) (a : ℚ) :
    l.foldl min a ≤ x := by
  induction l generalizing a with
  | nil => simp at hx
  | cons y ys ih =>
    rcases List.mem_cons.mp hx with rfl | h
    · exact le_trans (foldl_min_le_init ys (min a x)) (min_le_right a x)
    · exact ih h (min a y)

theorem le_foldl_min {l : List ℚ} {c a : ℚ} (ha : c ≤ a)
    (h : ∀ x ∈ l, c ≤ x) : c ≤ l.foldl min a := by
  induction l generalizing a with
  | nil => exact ha
  | cons y ys ih =>
    exact ih (le_min ha (h y (List.mem_cons_self y ys)))
      (fun x hx => h x (List.mem_cons.mpr (Or.inr hx)))

theorem init_le_foldl_max (l : List ℚ) (a : ℚ) : a ≤ l.foldl max a := by
  induction l generalizing a with
  | nil => exact le_rfl
  | cons x xs ih => exact le_trans (le_max_left a x) (ih (max a x))

theorem mem_le_foldl_max {l : List ℚ} {x : ℚ} (hx : x ∈ l) (a : ℚ) :
    x ≤ l.foldl max a := by
  induction l generalizing a with
  | nil => simp at hx
  | cons y ys ih =>
    rcases List.mem_cons.mp hx with rfl | h
    · exact le_trans (le_max_right a x) (init_le_foldl_max ys (max a x))
    · exact ih h (max a y)

theorem listMin_le {l : List ℚ} {x : ℚ} (hx : x ∈ l) : listMin l ≤ x := by
  cases l with
  | nil => simp at hx
  | cons y ys =>
    show ys.foldl min y ≤ x
    rcases List.mem_cons.mp hx with rfl | h
    · exact foldl_min_le_init ys x
    · exact foldl_min_le_mem h y

theorem le_listMax {l : List ℚ} {x : ℚ} (hx : x ∈ l) : x ≤ listMax l := by
  cases l with
  | nil => simp at hx
  | cons y ys =>
    show x ≤ ys.foldl max y
    rcases List.mem_cons.mp hx with rfl | h
    · exact init_le_foldl_max ys x
    · exact mem_le_foldl_max h y

theorem getD_zip_map (f : α × β → γ) (l1 : List α) (l2 : List β) (j : ℕ)
    (h1 : j < l1.length) (h2 : j < l2.length) (d : γ) (d1 : α) (d2 : β) :
    ((l1.zip l2).map f).getD j d = f (l1.getD j d1, l2.getD j d2) := by
  induction l1 generalizing l2 j with
  | nil => simp at h1
  | cons a as ih =>
    cases l2 with
    | nil => simp at h2
    | cons b bs =>
      cases j with
      | zero => rfl
      | succ n =>
        simp only [List.zip_cons_cons, List.map_cons, List.getD_cons_succ]
        exact ih bs n (Nat.lt_of_succ_lt_succ h1) (Nat.lt_of_succ_lt_succ h2)

theorem getD_range_map (f : ℕ → α) (n j : ℕ) (hj : j < n) (d : α) :
    ((List.range n).map f).getD j d = f j := by
  induction n with
  | zero => simp at hj
  | succ m ih =>
    rw [List.range_succ, List.map_append]
    rcases Nat.lt_or_ge j m with hjm | hjm
    · rw [List.getD_append]
      · exact ih hjm
      · simpa using hjm
    · have hj' : j = m := Nat.le_antisymm (Nat.lt_succ_iff.mp hj) hjm
      subst hj'
      rw [List.getD_append_right] <;> simp

theorem getD_map (f : α → β) (l : List α) (j : ℕ) (hj : j < l.length)
    (d : β) (d' : α) : (l.map f).getD j d = f (l.getD j d') := by
  induction l generalizing j with
  | nil => simp at hj
  | cons a as ih =>
    cases j with
    | zero => rfl
    | succ n => exact ih n (Nat.lt_of_succ_lt_succ hj)

end ListLemmas

theorem get_param_limits_length (grid : List (List ℚ)) :
    (get_param_limits grid).length = (grid.headD []).length := by
  simp [get_param_limits]

theorem get_param_limits_getD (grid : List (List ℚ)) (j : ℕ)
    (hj : j < (grid.headD []).length) :
    (get_param_limits grid).getD j (0, 0) =
      (listMin (colVals grid j), listMax (colVals grid j)) :=
  getD_range_map _ _ _ hj _

theorem rescale_params_getD (params : List ℚ) (lims : List (ℚ × ℚ)) (j : ℕ)
    (h1 : j < params.length) (h2 : j < lims.length) :
    (rescale_params params lims).getD j 0 =
      (params.getD j 0 - (lims.getD j (0, 0)).1) /
        ((lims.getD j (0, 0)).2 - (lims.getD j (0, 0)).1) :=
  getD_zip_map _ _ _ _ h1 h2 _ _ _

/-- C1: after construction-time rescaling with the limits computed by
`_get_param_limits`, every entry of the rescaled grid lies in `[0,1]`, the
record holding the column minimum maps to 0 and the record holding the column
maximum maps to 1 — provided every column takes at least two distinct
values. -/
theorem c1_rescaled_grid_unit_interval (grid : List (List ℚ)) (m : ℕ)
    (hm : m = (grid.headD []).length)
    (hrect : ∀ r ∈ grid, r.length = m)
    (hdist : ∀ j < m, ∃ r1 ∈ grid, ∃ r2 ∈ grid, r1.getD j 0 ≠ r2.getD j 0) :
    ∀ r ∈ grid, ∀ j < m,
      (0 ≤ (rescale_params r (get_param_limits grid)).getD j 0 ∧
        (rescale_params r (get_param_limits grid)).getD j 0 ≤ 1) ∧
      (r.getD j 0 = listMin (colVals grid j) →
        (rescale_params r (get_param_limits grid)).getD j 0 = 0) ∧
      (r.getD j 0 = listMax (colVals grid j) →
        (rescale_params r (get_param_limits grid)).getD j 0 = 1) := by
  intro r hr j hj
  have hjm : j < (grid.headD []).length := hm ▸ hj
  have hrl : j < r.length := by rw [hrect r hr]; exact hj
  have hll : j < (get_param_limits grid).length := by
    rw [get_param_limits_length]; exact hjm
  have hres : (rescale_params r (get_param_limits grid)).getD j 0 =
      (r.getD j 0 - listMin (colVals grid j)) /
        (listMax (colVals grid j) - listMin (colVals grid j)) := by
    rw [rescale_params_getD r (get_param_limits grid) j hrl hll,
      get_param_limits_getD grid j hjm]
  have hv : r.getD j 0 ∈ colVals grid j := List.mem_map_of_mem _ hr
  have hmnv := listMin_le hv
  have hvmx := le_listMax hv
  -- two distinct values in the column force min < max
  obtain ⟨r1, hr1, r2, hr2, hne⟩ := hdist j hj
  have h1v : r1.getD j 0 ∈ colVals grid j := List.mem_map_of_mem _ hr1
  have h2v : r2.getD j 0 ∈ colVals grid j := List.mem_map_of_mem _ hr2
  have hlt : listMin (colVals grid j) < listMax (colVals grid j) := by
    rcases lt_or_eq_of_le (le_trans (listMin_le h1v) (le_listMax h1v)) with h | h
    · exact h
    · exfalso
      apply hne
      have e1 : r1.getD j 0 = listMin (colVals grid j) := by
        refine le_antisymm ?_ (listMin_le h1v)
        rw [h]
        exact le_listMax h1v
      have e2 : r2.getD j 0 = listMin (colVals grid j) := by
        refine le_antisymm ?_ (listMin_le h2v)
        rw [h]
        exact le_listMax h2v
      rw [e1, e2]
  have hpos : 0 < listMax (colVals grid j) - listMin (colVals grid j) :=
    sub_pos.mpr hlt
  refine ⟨⟨?_, ?_⟩, ?_, ?_⟩
  · rw [hres]
    exact div_nonneg (sub_nonneg.mpr hmnv) (le_of_lt hpos)
  · rw [hres, div_le_one hpos]
    exact sub_le_sub_right hvmx _
  · intro h0
    rw [hres, h0]
    simp
  · intro h1
    rw [hres, h1]
    exact div_self (ne_of_gt hpos)

/-- Witness for C1 at the concrete grid `[[0,5],[2,3]]` (two columns, each
with two distinct values), at the first record and first coordinate. -/
theorem c1_witness :
    (0 ≤ (rescale_params [0, 5] (get_param_limits [[0, 5], [2, 3]])).getD 0 0 ∧
      (rescale_params [0, 5] (get_param_limits [[0, 5], [2, 3]])).getD 0 0 ≤ 1) ∧
    (([0, 5] : List ℚ).getD 0 0 = listMin (colVals [[0, 5], [2, 3]] 0) →
      (rescale_params [0, 5] (get_param_limits [[0, 5], [2, 3]])).getD 0 0 = 0) ∧
    (([0, 5] : List ℚ).getD 0 0 = listMax (colVals [[0, 5], [2, 3]] 0) →
      (rescale_params [0, 5] (get_param_limits [[0, 5], [2, 3]])).getD 0 0 = 1) :=
  c1_rescaled_grid_unit_interval [[0, 5], [2, 3]] 2 rfl (by decide)
    (by decide) [0, 5] (by decide) 0 (by decide)

/-- Median of a list as computed by `np.median` on a 1-d array: sort
ascending; for odd length take the middle element, for even length the mean of
the two middle elements. -/
def npMedian (l : List ℚ) : ℚ :=
  let s := l.insertionSort (· ≤ ·)
  if l.length % 2 = 1 then s.getD (l.length / 2) 0
  else (s.getD (l.length / 2 - 1) 0 + s.getD (l.length / 2) 0) / 2

/-- Column-wise median of a 2-d array, as computed by
`np.median(Ypoints, axis=0)`. -/
def npMedianAxis0 (Y : List (List ℚ)) : List ℚ :=
  (List.range (Y.headD []).length).map fun j => npMedian (colVals Y j)

/-- The data computed by `GPEmulator._build_interp` from the training grid and
the training targets: the rescaled parameter grid, the limits used, the
column-median scalefactors, and the normalized targets handed to
`GPy.models.GPRegression`. -/
structure BuildResult where
  X_param_grid : List (List ℚ)
  paramLimits : List (ℚ × ℚ)
  scalefactors : List ℚ
  normspectra : List (List ℚ)

/-- Embeds `GPEmulator._build_interp`: limits default to
`_get_param_limits` when no `paramLimits` was passed to the constructor; every
grid row is rescaled in place by `_rescale_params`; `scalefactors` is
`np.median(Ypoints, axis=0)` and `normspectra` is
`(Ypoints / scalefactors) - 1` (row-wise numpy broadcasting). -/
def build_interp (params : List (List ℚ)) (Ypoints : List (List ℚ))
    (paramLimits0 : Option (List (ℚ × ℚ))) : BuildResult :=
  let lims := match paramLimits0 with
    | none => get_param_limits params
    | some l => l
  { X_param_grid := params.map fun row => rescale_params row lims
    paramLimits := lims
    scalefactors := npMedianAxis0 Ypoints
    normspectra := Ypoints.map fun row =>
      (row.zip (npMedianAxis0 Ypoints)).map fun ys => ys.1 / ys.2 - 1 }

/-- The per-instance state of a `GPEmulator` that the prediction-side methods
read: the selected parameter names, the rescaling limits, the rescaled
training grid, the target scalefactors, and the `trained` / `checkHulls` /
`crossval` flags. -/
structure EmuState where
  paramList : List String
  paramLimits : List (ℚ × ℚ)
  X_param_grid : List (List ℚ)
  scalefactors : List ℚ
  trained : Bool
  checkHulls : Bool
  crossval : Bool

/-- Embeds `GPEmulator.return_unit_call`: look up each name of `paramList` in
the model dictionary (in `paramList` order) and rescale it with
`paramLimits[aa]`.  The same loop appears verbatim inside `check_in_hull`,
`predict` and `get_nearest_distance`, so those embeddings reuse this
definition. -/
def return_unit_call (st : EmuState) (model : String → ℚ) : List ℚ :=
  st.paramList.enum.map fun ap =>
    (model ap.2 - (st.paramLimits.getD ap.1 (0, 0)).1) /
      ((st.paramLimits.getD ap.1 (0, 0)).2 - (st.paramLimits.getD ap.1 (0, 0)).1)

/-- Embeds `GPEmulator.predict`.  `gp` is the trained GPy posterior
(`self.gp.predict`, returning the mean vector and the variance vector),
`sqrt` is `np.sqrt` and `find_simplex` is `self.hull.find_simplex` (negative
result = outside the hull).  The method returns `None` after printing when the
emulator is untrained; otherwise it rescales the model, optionally prints the
hull / cross-validation diagnostics, and returns
`((pred + 1) * scalefactors, sqrt(err) * scalefactors)`.  Printed text is
modelled as the second component of the result. -/
def predict (gp : List ℚ → List ℚ × List ℚ) (sqrt : ℚ → ℚ)
    (find_simplex : List ℚ → Int) (st : EmuState) (model : String → ℚ) :
    Option (List ℚ × List ℚ) × List String :=
  if st.trained = false then
    (none, ["Emulator not trained, cannot make a prediction"])
  else
    let param := return_unit_call st model
    let hullMsgs := if st.checkHulls && decide (find_simplex param < 0) then
        ["Model is outside convex hull"] else []
    let crossMsgs := if st.crossval &&
        param.all (fun v => st.X_param_grid.any fun row =>
          row.any fun x => decide (x = v)) then
        ["Emulator call is inside training set!!!"] else []
    let pe := gp param
    (some ((pe.1.zip st.scalefactors).map fun ps => (ps.1 + 1) * ps.2,
        (pe.2.zip st.scalefactors).map fun es => sqrt es.1 * es.2),
      hullMsgs ++ crossMsgs)

/-- C3: on an untrained emulator, `predict` aborts before the GP is touched:
it prints the diagnostic, returns `None` (no value/uncertainty pair), and the
result is independent of the GP posterior, the hull, and even the query model
— so no partial evaluation happens.  The embedding is a pure function of the
state, so no state change occurs. -/
theorem c3_untrained_predict_aborts (gp gp' : List ℚ → List ℚ × List ℚ)
    (sqrt sqrt' : ℚ → ℚ) (fs fs' : List ℚ → Int) (st : EmuState)
    (model model' : String → ℚ) (h : st.trained = false) :
    predict gp sqrt fs st model =
      (none, ["Emulator not trained, cannot make a prediction"]) ∧
    predict gp sqrt fs st model = predict gp' sqrt' fs' st model' := by
  constructor
  · rw [predict, if_pos h]
  · rw [predict, if_pos h, predict, if_pos h]

/-- Witness for C3 at a concrete untrained state. -/
theorem c3_witness :
    predict (fun _ => ([2], [4])) (fun x => x) (fun _ => 1)
        ⟨["mF"], [(0, 1)], [[0]], [3], false, false, false⟩ (fun _ => 7) =
      (none, ["Emulator not trained, cannot make a prediction"]) ∧
    predict (fun _ => ([2], [4])) (fun x => x) (fun _ => 1)
        ⟨["mF"], [(0, 1)], [[0]], [3], false, false, false⟩ (fun _ => 7) =
      predict (fun _ => ([5], [6])) (fun x => x + 1) (fun _ => -1)
        ⟨["mF"], [(0, 1)], [[0]], [3], false, false, false⟩ (fun _ => 8) :=
  c3_untrained_predict_aborts (fun _ => ([2], [4])) (fun _ => ([5], [6]))
    (fun x => x) (fun x => x + 1) (fun _ => 1) (fun _ => -1)
    ⟨["mF"], [(0, 1)], [[0]], [3], false, false, false⟩
    (fun _ => 7) (fun _ => 8) rfl

theorem getD_enumFrom_map {α β : Type*} (f : ℕ × α → β) (l : List α)
    (n j : ℕ) (hj : j < l.length) (d : β) (d' : α) :
    ((l.enumFrom n).map f).getD j d = f (n + j, l.getD j d') := by
  induction l generalizing n j with
  | nil => simp at hj
  | cons a as ih =>
    cases j with
    | zero => simp
    | succ m =>
      simp only [List.enumFrom_cons, List.map_cons, List.getD_cons_succ]
      rw [ih (n + 1) m (Nat.lt_of_succ_lt_succ hj)]
      have harith : n + 1 + m = n + (m + 1) := by omega
      rw [harith]

theorem return_unit_call_getD (st : EmuState) (model : String → ℚ) (j : ℕ)
    (hj : j < st.paramList.length) :
    (return_unit_call st model).getD j 0 =
      (model (st.paramList.getD j "") - (st.paramLimits.getD j (0, 0)).1) /
        ((st.paramLimits.getD j (0, 0)).2 - (st.paramLimits.getD j (0, 0)).1) := by
  rw [return_unit_call, List.enum, getD_enumFrom_map _ _ 0 j hj 0 ""]
  simp

theorem predict_trained (gp : List ℚ → List ℚ × List ℚ) (sqrt : ℚ → ℚ)
    (fs : List ℚ → Int) (st : EmuState) (model : String → ℚ)
    (ht : st.trained = true) :
    predict gp sqrt fs st model =
      (some (((gp (return_unit_call st model)).1.zip st.scalefactors).map
          (fun ps => (ps.1 + 1) * ps.2),
        ((gp (return_unit_call st model)).2.zip st.scalefactors).map
          (fun es => sqrt es.1 * es.2)),
      (if st.checkHulls && decide (fs (return_unit_call st model) < 0) then
          ["Model is outside convex hull"] else []) ++
        (if st.crossval && (return_unit_call st model).all
            (fun v => st.X_param_grid.any fun row =>
              row.any fun x => decide (x = v)) then
          ["Emulator call is inside training set!!!"] else [])) := by
  rw [predict, if_neg (by simp [ht])]

theorem getD_mem_of_lt {l : List (List ℚ)} {i : ℕ} (hi : i < l.length) :
    l.getD i [] ∈ l := by
  induction l generalizing i with
  | nil => simp at hi
  | cons a as ih =>
    cases i with
    | zero => exact List.mem_cons_self _ _
    | succ n => exact List.mem_cons.mpr (Or.inr (ih (Nat.lt_of_succ_lt_succ hi)))

/-- C4: `_build_interp` sets the scalefactors to the column-wise median of
the training targets and trains the GP on `Y/scalefactors - 1`; on a trained
emulator, `predict` de-normalizes the GP posterior as
`value = (mean + 1) * scalefactor` and
`uncertainty = sqrt(variance) * scalefactor`, elementwise per target
column. -/
theorem c4_median_normalization_denormalization
    (params Y : List (List ℚ)) (k : ℕ) (hk : k = (Y.headD []).length)
    (hrect : ∀ row ∈ Y, row.length = k)
    (gp : List ℚ → List ℚ × List ℚ) (sqrt : ℚ → ℚ) (fs : List ℚ → Int)
    (st : EmuState) (model : String → ℚ) (ht : st.trained = true) :
    (∀ j < k, (build_interp params Y none).scalefactors.getD j 0 =
        npMedian (colVals Y j)) ∧
    (∀ i < Y.length, ∀ j < k,
        ((build_interp params Y none).normspectra.getD i []).getD j 0 =
          (Y.getD i []).getD j 0 / npMedian (colVals Y j) - 1) ∧
    ∃ vals errs, (predict gp sqrt fs st model).1 = some (vals, errs) ∧
      (∀ j, j < (gp (return_unit_call st model)).1.length →
          j < st.scalefactors.length →
          vals.getD j 0 = ((gp (return_unit_call st model)).1.getD j 0 + 1) *
            st.scalefactors.getD j 0) ∧
      (∀ j, j < (gp (return_unit_call st model)).2.length →
          j < st.scalefactors.length →
          errs.getD j 0 = sqrt ((gp (return_unit_call st model)).2.getD j 0) *
            st.scalefactors.getD j 0) := by
  have hsf : ∀ j < k, (npMedianAxis0 Y).getD j 0 = npMedian (colVals Y j) := by
    intro j hj
    exact getD_range_map _ _ _ (hk ▸ hj) _
  refine ⟨fun j hj => hsf j hj, ?_, ?_⟩
  · intro i hi j hj
    have hrow : (build_interp params Y none).normspectra.getD i [] =
        ((Y.getD i []).zip (npMedianAxis0 Y)).map fun ys => ys.1 / ys.2 - 1 :=
      getD_map _ Y i hi _ _
    rw [hrow, getD_zip_map _ _ _ j ?_ ?_ 0 0 0, hsf j hj]
    · rw [hrect _ (getD_mem_of_lt hi)]
      exact hj
    · simpa [npMedianAxis0, hk] using hj
  · rw [predict_trained gp sqrt fs st model ht]
    refine ⟨_, _, rfl, ?_, ?_⟩
    · intro j hj1 hj2
      exact getD_zip_map _ _ _ j hj1 hj2 0 0 0
    · intro j hj1 hj2
      exact getD_zip_map _ _ _ j hj1 hj2 0 0 0

/-- Witness for C4: targets `[[2],[4]]` (column median 3, normalized entries
`2/3-1` and `4/3-1`), and a trained one-parameter state in which the GP mean
1 and variance 4 de-normalize to `(1+1)*3` and `sqrt 4 * 3`. -/
theorem c4_witness :
    ((build_interp [[0], [1]] [[2], [4]] none).scalefactors.getD 0 0 =
      npMedian (colVals [[2], [4]] 0)) ∧
    (((build_interp [[0], [1]] [[2], [4]] none).normspectra.getD 0 []).getD 0 0 =
      (([[2], [4]] : List (List ℚ)).getD 0 []).getD 0 0 /
        npMedian (colVals [[2], [4]] 0) - 1) ∧
    ∃ vals errs,
      (predict (fun _ => ([1], [4])) (fun x => x) (fun _ => 1)
          ⟨["mF"], [(0, 2)], [[0]], [3], true, false, false⟩ (fun _ => 1)).1 =
        some (vals, errs) ∧
      vals.getD 0 0 = ((1 : ℚ) + 1) * 3 ∧ errs.getD 0 0 = (4 : ℚ) * 3 := by
  have h := c4_median_normalization_denormalization [[0], [1]] [[2], [4]] 1
    rfl (by decide) (fun _ => ([1], [4])) (fun x => x) (fun _ => 1)
    ⟨["mF"], [(0, 2)], [[0]], [3], true, false, false⟩ (fun _ => 1) rfl
  refine ⟨h.1 0 (by decide), h.2.1 0 (by decide) 0 (by decide), ?_⟩
  obtain ⟨vals, errs, heq, hv, he⟩ := h.2.2
  exact ⟨vals, errs, heq, hv 0 (by decide) (by decide),
    he 0 (by decide) (by decide)⟩

/-- C7: on a trained emulator the convex-hull test is advisory only:
`predict` returns a value/uncertainty pair whatever the hull test says, the
returned pair does not depend on the hull test at all, and an out-of-hull
query (with `checkHulls` enabled) merely adds the warning line to the printed
output. -/
theorem c7_hull_advisory_only (gp : List ℚ → List ℚ × List ℚ)
    (sqrt : ℚ → ℚ) (fs fs' : List ℚ → Int) (st : EmuState)
    (model : String → ℚ) (ht : st.trained = true) :
    ((predict gp sqrt fs st model).1).isSome = true ∧
    (predict gp sqrt fs st model).1 = (predict gp sqrt fs' st model).1 ∧
    (st.checkHulls = true → fs (return_unit_call st model) < 0 →
      "Model is outside convex hull" ∈ (predict gp sqrt fs st model).2) := by
  rw [predict_trained gp sqrt fs st model ht,
    predict_trained gp sqrt fs' st model ht]
  refine ⟨rfl, rfl, ?_⟩
  intro hch hfs
  simp [hch, hfs]

/-- Witness for C7: a trained one-parameter emulator with `checkHulls` on and
a hull test reporting "outside" still returns a prediction and logs the
warning. -/
theorem c7_witness :
    ((predict (fun _ => ([1], [4])) (fun x => x) (fun _ => -1)
        ⟨["mF"], [(0, 2)], [[0]], [3], true, true, false⟩ (fun _ => 5)).1).isSome
      = true ∧
    (predict (fun _ => ([1], [4])) (fun x => x) (fun _ => -1)
        ⟨["mF"], [(0, 2)], [[0]], [3], true, true, false⟩ (fun _ => 5)).1 =
      (predict (fun _ => ([1], [4])) (fun x => x) (fun _ => 7)
        ⟨["mF"], [(0, 2)], [[0]], [3], true, true, false⟩ (fun _ => 5)).1 ∧
    "Model is outside convex hull" ∈
      (predict (fun _ => ([1], [4])) (fun x => x) (fun _ => -1)
        ⟨["mF"], [(0, 2)], [[0]], [3], true, true, false⟩ (fun _ => 5)).2 := by
  have h := c7_hull_advisory_only (fun _ => ([1], [4])) (fun x => x)
    (fun _ => -1) (fun _ => 7)
    ⟨["mF"], [(0, 2)], [[0]], [3], true, true, false⟩ (fun _ => 5) rfl
  exact ⟨h.1, h.2.1, h.2.2 rfl (by decide)⟩

/-- C2 counterexample: with a zero-range parameter (limits `(3,3)`) the code
raises nothing.  `_rescale_params` performs the division with the literally
zero denominator `3 - 3` and returns normally, and a trained emulator's
`predict` on such limits still returns a value/uncertainty pair — there is no
`DegenerateParameterError` (or any zero-range check) anywhere in the code. -/
theorem c2_counterexample :
    rescale_params [5] [((3 : ℚ), 3)] = [(5 - 3) / (3 - 3)] ∧
    ((3 : ℚ) - 3 = 0) ∧
    ((predict (fun _ => ([1], [4])) (fun x => x) (fun _ => 1)
        ⟨["mF"], [((3 : ℚ), 3)], [[0]], [3], true, false, false⟩
        (fun _ => 5)).1).isSome = true := by
  refine ⟨rfl, by norm_num, rfl⟩

/-- C2 as amended: zero-range parameters are not detected.  Rescaling applies
`(x - min) / (max - min)` unconditionally — with a degenerate column the
denominator is the literal 0 — and both the construction-time grid rescaling
and a trained emulator's prediction-time rescaling complete without signalling
any error. -/
theorem c2_amended_no_degenerate_check (lims : List (ℚ × ℚ)) (j : ℕ)
    (params : List ℚ) (hp : j < params.length) (hl : j < lims.length)
    (hdeg : (lims.getD j (0, 0)).2 = (lims.getD j (0, 0)).1)
    (gp : List ℚ → List ℚ × List ℚ) (sqrt : ℚ → ℚ) (fs : List ℚ → Int)
    (st : EmuState) (hlims : st.paramLimits = lims)
    (hjp : j < st.paramList.length)
    (ht : st.trained = true) (model : String → ℚ) :
    (rescale_params params lims).getD j 0 =
      (params.getD j 0 - (lims.getD j (0, 0)).1) / 0 ∧
    (return_unit_call st model).getD j 0 =
      (model (st.paramList.getD j "") - (lims.getD j (0, 0)).1) / 0 ∧
    ((predict gp sqrt fs st model).1).isSome = true := by
  refine ⟨?_, ?_, ?_⟩
  · rw [rescale_params_getD params lims j hp hl, hdeg, sub_self]
  · rw [return_unit_call_getD st model j hjp, hlims, hdeg, sub_self]
  · rw [predict_trained gp sqrt fs st model ht]
    rfl

/-- Witness for C2's amended statement at the degenerate limits `(3,3)`. -/
theorem c2_witness :
    (rescale_params [5] [((3 : ℚ), 3)]).getD 0 0 =
      (([5] : List ℚ).getD 0 0 - (([((3 : ℚ), 3)]).getD 0 (0, 0)).1) / 0 ∧
    (return_unit_call ⟨["mF"], [((3 : ℚ), 3)], [[0]], [3], true, false, false⟩
        (fun _ => 5)).getD 0 0 =
      ((fun _ => (5 : ℚ)) ((["mF"] : List String).getD 0 "") -
        (([((3 : ℚ), 3)]).getD 0 (0, 0)).1) / 0 ∧
    ((predict (fun _ => ([1], [4])) (fun x => x) (fun _ => 1)
        ⟨["mF"], [((3 : ℚ), 3)], [[0]], [3], true, false, false⟩
        (fun _ => 5)).1).isSome = true :=
  c2_amended_no_degenerate_check [((3 : ℚ), 3)] 0 [5] (by decide) (by decide)
    (by decide) (fun _ => ([1], [4])) (fun x => x) (fun _ => 1)
    ⟨["mF"], [((3 : ℚ), 3)], [[0]], [3], true, false, false⟩ rfl (by decide)
    rfl (fun _ => 5)

/-- The configuration fingerprint written to `saved_emulator_<n>.json` by
`saveEmulator` and compared (Python dict equality, i.e. full structural
equality of every field) by `loadEmulator`. -/
structure InitParams where
  k_bin : ℕ
  emu_type : String
  emu_noise : ℚ
  drop_tau_rescalings : Bool
  drop_temp_rescalings : Bool
  keep_every_other_rescaling : Bool
  undersample_z : ℕ
  paramList : List String
  asymmetric_kernel : Bool
  z_max : ℚ
  deriving DecidableEq

/-- A directory under `basedir`: the saved emulators with suffixes `1, 2, …`
in order, each a `.json` fingerprint paired with the `.npy` hyperparameter
vector sharing its stem.  `saveEmulator` itself always writes at the first
free suffix, so directories reachable through it are contiguous. -/
abbrev SavedDir := List (InitParams × List ℚ)

/-- The `while os.path.isfile(...)` scan of `saveEmulator`: walk the suffixes
in order; if a stored fingerprint equals `initParams`, stop without writing;
at the first free suffix write the fingerprint and hyperparameter pair. -/
def saveLoop : SavedDir → InitParams → List ℚ → SavedDir
  | [], fp, hyp => [(fp, hyp)]
  | e :: rest, fp, hyp =>
    if e.1 = fp then e :: rest else e :: saveLoop rest fp hyp

/-- Embeds `GPEmulator.saveEmulator`: refuse (no write) on a custom archive,
on a size-capped archive, or when not trained; otherwise scan and write via
`saveLoop`. -/
def saveEmulator (custom_arxiv : Bool) (max_arxiv_size : Option ℕ)
    (trained : Bool) (fp : InitParams) (hyp : List ℚ) (dir : SavedDir) :
    SavedDir :=
  if custom_arxiv || max_arxiv_size.isSome then dir
  else if trained = false then dir
  else saveLoop dir fp hyp

/-- The scan of `loadEmulator`: first stored entry whose fingerprint equals
`initParams` exactly, if any. -/
def loadLoop : SavedDir → InitParams → Option (List ℚ)
  | [], _ => none
  | e :: rest, fp => if e.1 = fp then some e.2 else loadLoop rest fp

/-- Embeds `GPEmulator.loadEmulator`: refuse on custom/size-capped archives
or when already trained; otherwise scan for an exact fingerprint match, and
on a hit install the stored hyperparameters and set `trained`.  The result is
the loaded hyperparameters (if any) and the `trained` flag afterwards. -/
def loadEmulator (custom_arxiv : Bool) (max_arxiv_size : Option ℕ)
    (trained : Bool) (fp : InitParams) (dir : SavedDir) :
    Option (List ℚ) × Bool :=
  if custom_arxiv || max_arxiv_size.isSome then (none, trained)
  else if trained = true then (none, trained)
  else
    match loadLoop dir fp with
    | some hyp => (some hyp, true)
    | none => (none, trained)

theorem saveLoop_not_mem {dir : SavedDir} {fp : InitParams}
    (hnew : ∀ e ∈ dir, e.1 ≠ fp) (hyp : List ℚ) :
    saveLoop dir fp hyp = dir ++ [(fp, hyp)] := by
  induction dir with
  | nil => rfl
  | cons e rest ih =>
    rw [saveLoop, if_neg (hnew e (List.mem_cons_self e rest)),
      ih (fun x hx => hnew x (List.mem_cons.mpr (Or.inr hx)))]
    rfl

theorem saveLoop_mem {dir : SavedDir} {fp : InitParams}
    (hmem : ∃ e ∈ dir, e.1 = fp) (hyp : List ℚ) :
    saveLoop dir fp hyp = dir := by
  induction dir with
  | nil => simp at hmem
  | cons e rest ih =>
    by_cases he : e.1 = fp
    · rw [saveLoop, if_pos he]
    · obtain ⟨x, hx, hxfp⟩ := hmem
      rcases List.mem_cons.mp hx with rfl | hx'
      · exact absurd hxfp he
      · rw [saveLoop, if_neg he, ih ⟨x, hx', hxfp⟩]

/-- C5: saving is idempotent in the configuration fingerprint.  On a standard
archive (no custom archive, no size cap) with a trained emulator, if no
existing saved state carries the current fingerprint, the first
`saveEmulator` call appends exactly one new fingerprint/hyperparameter pair
at the first free suffix, a second call (same configuration, any
hyperparameters) writes nothing, and afterwards exactly one saved state
carries that fingerprint. -/
theorem c5_save_idempotent (dir : SavedDir) (fp : InitParams)
    (hyp hyp' : List ℚ) (hnew : ∀ e ∈ dir, e.1 ≠ fp) :
    saveEmulator false none true fp hyp dir = dir ++ [(fp, hyp)] ∧
    saveEmulator false none true fp hyp'
        (saveEmulator false none true fp hyp dir) =
      saveEmulator false none true fp hyp dir ∧
    ((saveEmulator false none true fp hyp'
        (saveEmulator false none true fp hyp dir)).filter
      (fun e => decide (e.1 = fp))).length = 1 := by
  have h1 : saveEmulator false none true fp hyp dir = dir ++ [(fp, hyp)] := by
    rw [saveEmulator, if_neg (by simp), if_neg (by simp)]
    exact saveLoop_not_mem hnew hyp
  have h2 : saveEmulator false none true fp hyp'
      (saveEmulator false none true fp hyp dir) =
      saveEmulator false none true fp hyp dir := by
    rw [saveEmulator, if_neg (by simp), if_neg (by simp), h1]
    exact saveLoop_mem ⟨(fp, hyp), by simp, rfl⟩ hyp'
  refine ⟨h1, h2, ?_⟩
  rw [h2, h1, List.filter_append]
  have hdrop : dir.filter (fun e => decide (e.1 = fp)) = [] := by
    rw [List.filter_eq_nil_iff]
    intro e he
    simpa using hnew e he
  rw [hdrop]
  simp

/-- Witness for C5 starting from a directory with one differently-configured
saved state. -/
theorem c5_witness :
    saveEmulator false none true
        ⟨1, "k_bin", 1, true, false, false, 1, ["mF"], false, 5⟩ [2]
        [(⟨9, "polyfit", 1, false, false, false, 1, ["mF"], false, 5⟩, [7])] =
      [(⟨9, "polyfit", 1, false, false, false, 1, ["mF"], false, 5⟩, [7]),
        (⟨1, "k_bin", 1, true, false, false, 1, ["mF"], false, 5⟩, [2])] ∧
    saveEmulator false none true
        ⟨1, "k_bin", 1, true, false, false, 1, ["mF"], false, 5⟩ [3]
        (saveEmulator false none true
          ⟨1, "k_bin", 1, true, false, false, 1, ["mF"], false, 5⟩ [2]
          [(⟨9, "polyfit", 1, false, false, false, 1, ["mF"], false, 5⟩, [7])]) =
      saveEmulator false none true
        ⟨1, "k_bin", 1, true, false, false, 1, ["mF"], false, 5⟩ [2]
        [(⟨9, "polyfit", 1, false, false, false, 1, ["mF"], false, 5⟩, [7])] ∧
    ((saveEmulator false none true
        ⟨1, "k_bin", 1, true, false, false, 1, ["mF"], false, 5⟩ [3]
        (saveEmulator false none true
          ⟨1, "k_bin", 1, true, false, false, 1, ["mF"], false, 5⟩ [2]
          [(⟨9, "polyfit", 1, false, false, false, 1, ["mF"], false, 5⟩, [7])])).filter
      (fun e => decide
        (e.1 = ⟨1, "k_bin", 1, true, false, false, 1, ["mF"], false, 5⟩))).length
      = 1 :=
  c5_save_idempotent
    [(⟨9, "polyfit", 1, false, false, false, 1, ["mF"], false, 5⟩, [7])]
    ⟨1, "k_bin", 1, true, false, false, 1, ["mF"], false, 5⟩ [2] [3]
    (by decide)

/-- C6: `loadEmulator` installs hyperparameters only from a saved state whose
fingerprint is structurally identical to the current configuration.  If a
load succeeds, the matching entry exists in the directory; if no fingerprint
matches, the result is "not found" and the emulator stays untrained; in
particular a directory whose states were all saved with a different
`drop_tau_rescalings` flag never yields hyperparameters. -/
theorem loadLoop_find {dir : SavedDir} {fp : InitParams} {hyp : List ℚ}
    (h : loadLoop dir fp = some hyp) : ∃ e ∈ dir, e.1 = fp ∧ e.2 = hyp := by
  induction dir with
  | nil => simp [loadLoop] at h
  | cons e rest ih =>
    by_cases he : e.1 = fp
    · rw [loadLoop, if_pos he] at h
      exact ⟨e, List.mem_cons_self e rest, he, Option.some_inj.mp h⟩
    · rw [loadLoop, if_neg he] at h
      obtain ⟨x, hx, hxe⟩ := ih h
      exact ⟨x, List.mem_cons.mpr (Or.inr hx), hxe⟩

theorem loadLoop_none {dir : SavedDir} {fp : InitParams}
    (h : ∀ e ∈ dir, e.1 ≠ fp) : loadLoop dir fp = none := by
  induction dir with
  | nil => rfl
  | cons e rest ih =>
    rw [loadLoop, if_neg (h e (List.mem_cons_self e rest))]
    exact ih (fun x hx => h x (List.mem_cons.mpr (Or.inr hx)))

theorem c6_load_exact_fingerprint (fp : InitParams) (dir : SavedDir) :
    (∀ hyp, (loadEmulator false none false fp dir).1 = some hyp →
      ∃ e ∈ dir, e.1 = fp ∧ e.2 = hyp) ∧
    ((∀ e ∈ dir, e.1 ≠ fp) →
      loadEmulator false none false fp dir = (none, false)) ∧
    (∀ fp' : InitParams, fp'.drop_tau_rescalings ≠ fp.drop_tau_rescalings →
      (∀ e ∈ dir, e.1 = fp') →
      loadEmulator false none false fp dir = (none, false)) := by
  have hload : loadEmulator false none false fp dir =
      match loadLoop dir fp with
      | some hyp => (some hyp, true)
      | none => (none, false) := by
    rw [loadEmulator, if_neg (by simp), if_neg (by simp)]
  refine ⟨?_, ?_, ?_⟩
  · intro hyp h
    rw [hload] at h
    cases hll : loadLoop dir fp with
    | none => rw [hll] at h; simp at h
    | some v =>
      rw [hll] at h
      simp only at h
      exact Option.some_inj.mp h ▸ loadLoop_find hll
  · intro h
    rw [hload, loadLoop_none h]
  · intro fp' hne h
    rw [hload, loadLoop_none]
    intro e he
    rw [h e he]
    intro hcontra
    exact hne (by rw [hcontra])

/-- Witness for C6: a directory holding only a state saved with
`drop_tau_rescalings = True` yields "not found" (and no hyperparameters) when
loaded with `drop_tau_rescalings = False`. -/
theorem c6_witness :
    (∀ hyp, (loadEmulator false none false
        ⟨1, "k_bin", 1, false, false, false, 1, ["mF"], false, 5⟩
        [((⟨1, "k_bin", 1, true, false, false, 1, ["mF"], false, 5⟩ : InitParams),
          ([7] : List ℚ))]).1
        = some hyp →
      ∃ e ∈ [((⟨1, "k_bin", 1, true, false, false, 1, ["mF"], false, 5⟩ : InitParams),
          ([7] : List ℚ))],
        e.1 = (⟨1, "k_bin", 1, false, false, false, 1, ["mF"], false, 5⟩ : InitParams) ∧
        e.2 = hyp) ∧
    loadEmulator false none false
        ⟨1, "k_bin", 1, false, false, false, 1, ["mF"], false, 5⟩
        [((⟨1, "k_bin", 1, true, false, false, 1, ["mF"], false, 5⟩ : InitParams),
          ([7] : List ℚ))] =
      (none, false) := by
  have h := c6_load_exact_fingerprint
    ⟨1, "k_bin", 1, false, false, false, 1, ["mF"], false, 5⟩
    [((⟨1, "k_bin", 1, true, false, false, 1, ["mF"], false, 5⟩ : InitParams),
      ([7] : List ℚ))]
  exact ⟨h.1, h.2.2 ⟨1, "k_bin", 1, true, false, false, 1, ["mF"], false, 5⟩
    (by decide) (by decide)⟩

/-- Evaluation of `np.poly1d(coeffs)` at `x`: `coeffs[0]` is the highest
degree coefficient, so the value is the highest-first Horner scheme. -/
def np_poly1d_eval (coeffs : List ℚ) (x : ℚ) : ℚ :=
  coeffs.foldl (fun acc c => acc * x + c) 0

/-- Modelled from the spec: the module `poly_p1d` (class `PolyP1D`) is not
under `src/`; only its callers are.  Per the spec's PolynomialFitter
contract, in reconstruction mode the object is built directly from a
coefficient vector `lnP_fit` (plus `kmin_Mpc`), and evaluation reconstructs
`P1D(k) = exp(poly(log k))` for arbitrary positive `k`.  `exp` and `log` are
the external numeric routines, taken as parameters of `P_Mpc`. -/
structure PolyP1D where
  lnP_fit : List ℚ
  kmin_Mpc : ℚ

/-- Modelled from the spec: `PolyP1D.P_Mpc` evaluates the fitted polynomial
in `log k` and exponentiates. -/
def PolyP1D.P_Mpc (exp log : ℚ → ℚ) (p : PolyP1D) (k : ℚ) : ℚ :=
  exp (np_poly1d_eval p.lnP_fit (log k))

/-- The state of a `LinearEmulator` used by `emulate_p1d_Mpc`: the
per-coefficient scipy interpolators (abstract functions of the query point)
and the `kmin_Mpc` of the training fits. -/
structure LinearEmulator where
  linterps : List (List ℚ → ℚ)
  kmin_Mpc : ℚ

/-- Embeds `LinearEmulator._point_from_model`: extract the seven parameters
from the model dictionary in the fixed order. -/
def _point_from_model (model : String → ℚ) : List ℚ :=
  [model "Delta2_p", model "n_p", model "alpha_p", model "f_p",
    model "mF", model "sigT_Mpc", model "gamma"]

/-- Embeds `LinearEmulator.emulate_p1d_Mpc`: evaluate each per-coefficient
interpolator at the query point, storing interpolator `i`'s output at
coefficient index `Npar-i-1` (the loop `coeffs[Npar-i-1] = linterps[i](point)`
is transcribed as the direct indexing `coeffs[j] = linterps[Npar-1-j](point)`,
the same assignment read off by target index), build a `PolyP1D` from the
coefficient vector and the training `kmin_Mpc`, and return its `P_Mpc` at the
requested wavenumbers. -/
def LinearEmulator.emulate_p1d_Mpc (exp log : ℚ → ℚ) (e : LinearEmulator)
    (model : String → ℚ) (k_Mpc : List ℚ) : List ℚ :=
  let point := _point_from_model model
  let Npar := e.linterps.length
  let coeffs := (List.range Npar).map fun j =>
    (e.linterps.getD (Npar - 1 - j) (fun _ => 0)) point
  k_Mpc.map (PolyP1D.P_Mpc exp log { lnP_fit := coeffs, kmin_Mpc := e.kmin_Mpc })

theorem range_map_rev {α : Type*} (f : ℕ → α) (n : ℕ) :
    (List.range n).map (fun j => f (n - 1 - j)) = ((List.range n).map f).reverse := by
  rw [← List.map_reverse, List.range_eq_range', List.reverse_range',
    List.range_eq_range', List.map_map]
  apply List.map_congr_left
  intro a _
  simp only [Function.comp_apply]
  congr 1
  omega

theorem range_map_getD_apply {α β : Type*} (h : α → β) (l : List α) (d : α) :
    (List.range l.length).map (fun j => h (l.getD j d)) = l.map h := by
  induction l with
  | nil => rfl
  | cons a as ih =>
    rw [List.length_cons, List.range_succ_eq_map, List.map_cons, List.map_map,
      List.map_cons]
    simp only [List.cons.injEq]
    refine ⟨rfl, ?_⟩
    rw [← ih]
    apply List.map_congr_left
    intro j _
    rfl

/-- C8: `LinearEmulator.emulate_p1d_Mpc` consumes the per-coefficient
interpolators in reverse index order — interpolator `i`'s output sits at
coefficient index `Npar-i-1`, so the assembled coefficient vector is the
reverse of the interpolator outputs — builds a `PolyP1D` from that vector
and the training `kmin_Mpc`, and returns that polynomial's `P_Mpc` at every
requested wavenumber. -/
theorem c8_reverse_coefficient_order (exp log : ℚ → ℚ) (e : LinearEmulator)
    (model : String → ℚ) (k_Mpc : List ℚ) :
    e.emulate_p1d_Mpc exp log model k_Mpc =
      k_Mpc.map (PolyP1D.P_Mpc exp log
        { lnP_fit := (e.linterps.map fun f => f (_point_from_model model)).reverse
          kmin_Mpc := e.kmin_Mpc }) ∧
    ∀ i < e.linterps.length,
      ((List.range e.linterps.length).map fun j =>
          (e.linterps.getD (e.linterps.length - 1 - j) (fun _ => 0))
            (_point_from_model model)).getD (e.linterps.length - 1 - i) 0 =
        (e.linterps.getD i (fun _ => 0)) (_point_from_model model) := by
  have hco : ((List.range e.linterps.length).map fun j =>
      (e.linterps.getD (e.linterps.length - 1 - j) (fun _ => 0))
        (_point_from_model model)) =
      (e.linterps.map fun f => f (_point_from_model model)).reverse := by
    rw [range_map_rev (fun j => (e.linterps.getD j (fun _ => 0))
      (_point_from_model model)) e.linterps.length]
    rw [range_map_getD_apply (fun f => f (_point_from_model model))
      e.linterps (fun _ => 0)]
  constructor
  · simp only [LinearEmulator.emulate_p1d_Mpc]
    rw [hco]
  · intro i hi
    rw [getD_range_map _ _ _ (by omega) _]
    have hi' : e.linterps.length - 1 - (e.linterps.length - 1 - i) = i := by
      omega
    rw [hi']

/-- Witness for C8: two interpolators returning 1 and 2 produce the reversed
coefficient vector `[2, 1]`, and interpolator 0's output lands at index 1. -/
theorem c8_witness :
    LinearEmulator.emulate_p1d_Mpc (fun x => x) (fun x => x)
        ⟨[fun _ => 1, fun _ => 2], 1⟩ (fun _ => 0) [3] =
      [3].map (PolyP1D.P_Mpc (fun x => x) (fun x => x)
        { lnP_fit := ((([fun _ => 1, fun _ => 2] : List (List ℚ → ℚ)).map
            fun f => f (_point_from_model (fun _ => 0))).reverse)
          kmin_Mpc := 1 }) ∧
    ((List.range 2).map fun j =>
        (([fun _ => 1, fun _ => 2] : List (List ℚ → ℚ)).getD (2 - 1 - j)
          (fun _ => 0)) (_point_from_model (fun _ => 0))).getD (2 - 1 - 0) 0 =
      (([fun _ => 1, fun _ => 2] : List (List ℚ → ℚ)).getD 0 (fun _ => 0))
        (_point_from_model (fun _ => 0)) := by
  have h := c8_reverse_coefficient_order (fun x => x) (fun x => x)
    ⟨[fun _ => 1, fun _ => 2], 1⟩ (fun _ => 0) [3]
  exact ⟨h.1, h.2 0 (by decide)⟩

/-- Embeds `GPEmulator.get_nearest_distance`: rescale the query model (the
same loop as `return_unit_call`), then scan every training row, keeping the
`sqrt`-of-sum-of-squares distance whenever it is strictly smaller than the
running value, which starts at the sentinel `99.99`. -/
def get_nearest_distance (sqrt : ℚ → ℚ) (st : EmuState)
    (model : String → ℚ) : ℚ :=
  let param := return_unit_call st model
  st.X_param_grid.foldl
    (fun shortest training_point =>
      let new_distance := sqrt (((training_point.zip param).map
        fun ab => (ab.1 - ab.2) ^ 2).sum)
      if new_distance < shortest then new_distance else shortest)
    (9999 / 100)

/-- The list of Euclidean distances (as computed with the external `sqrt`)
from the rescaled query point to each training grid row, in grid order. -/
def trainDists (sqrt : ℚ → ℚ) (st : EmuState) (model : String → ℚ) : List ℚ :=
  st.X_param_grid.map fun training_point =>
    sqrt (((training_point.zip (return_unit_call st model)).map
      fun ab => (ab.1 - ab.2) ^ 2).sum)

theorem get_nearest_distance_eq_foldl (sqrt : ℚ → ℚ) (st : EmuState)
    (model : String → ℚ) :
    get_nearest_distance sqrt st model =
      (trainDists sqrt st model).foldl min (9999 / 100) := by
  simp only [get_nearest_distance, trainDists, List.foldl_map]
  congr 1
  funext s tp
  by_cases h : sqrt (((tp.zip (return_unit_call st model)).map
      fun ab => (ab.1 - ab.2) ^ 2).sum) < s
  · rw [if_pos h, min_eq_right (le_of_lt h)]
  · rw [if_neg h, min_eq_left (not_lt.mp h)]

theorem foldl_min_assoc (l : List ℚ) (c d : ℚ) :
    l.foldl min (min c d) = min c (l.foldl min d) := by
  induction l generalizing d with
  | nil => rfl
  | cons y ys ih =>
    show ys.foldl min (min (min c d) y) = min c (ys.foldl min (min d y))
    rw [min_assoc, ih]

theorem foldl_min_eq_min_listMin {l : List ℚ} (hl : l ≠ []) (c : ℚ) :
    l.foldl min c = min c (listMin l) := by
  cases l with
  | nil => exact absurd rfl hl
  | cons x xs =>
    show xs.foldl min (min c x) = min c (xs.foldl min x)
    exact foldl_min_assoc xs c x

theorem zip_self_sq_sum (q : List ℚ) :
    ((q.zip q).map fun ab => (ab.1 - ab.2) ^ 2).sum = 0 := by
  induction q with
  | nil => rfl
  | cons a as ih => simp [ih]

theorem trainDists_nonneg (sqrt : ℚ → ℚ) (hnn : ∀ x, 0 ≤ x → 0 ≤ sqrt x)
    (st : EmuState) (model : String → ℚ) :
    ∀ d ∈ trainDists sqrt st model, 0 ≤ d := by
  intro d hd
  rw [trainDists] at hd
  obtain ⟨tp, _, rfl⟩ := List.mem_map.mp hd
  apply hnn
  apply List.sum_nonneg
  intro x hx
  obtain ⟨ab, _, rfl⟩ := List.mem_map.mp hx
  exact sq_nonneg _

theorem list_ext_getD {l1 l2 : List ℚ} (hlen : l1.length = l2.length)
    (h : ∀ j < l1.length, l1.getD j 0 = l2.getD j 0) : l1 = l2 := by
  induction l1 generalizing l2 with
  | nil =>
    cases l2 with
    | nil => rfl
    | cons b bs => simp at hlen
  | cons a as ih =>
    cases l2 with
    | nil => simp at hlen
    | cons b bs =>
      have h0 := h 0 (by simp)
      simp only [List.getD_cons_zero] at h0
      rw [h0]
      congr 1
      apply ih
      · simpa using hlen
      · intro j hj
        have hsj := h (j + 1) (by simpa using hj)
        simpa using hsj

theorem return_unit_call_length (st : EmuState) (model : String → ℚ) :
    (return_unit_call st model).length = st.paramList.length := by
  simp [return_unit_call]

theorem rescale_params_length (params : List ℚ) (lims : List (ℚ × ℚ)) :
    (rescale_params params lims).length = min params.length lims.length := by
  simp [rescale_params]

/-- C10: `get_nearest_distance` starts its running minimum at the sentinel
`99.99` and replaces it only on strictly smaller distances, so it returns the
fold of `min` over the training-row distances starting at `99.99` — when the
grid is nonempty this is `min(99.99, true nearest distance)` — and whenever
every training row lies at distance at least `99.99`, it returns `99.99`
instead of the true nearest distance. -/
theorem c10_sentinel_capped_minimum (sqrt : ℚ → ℚ) (st : EmuState)
    (model : String → ℚ) :
    get_nearest_distance sqrt st model =
      (trainDists sqrt st model).foldl min (9999 / 100) ∧
    (st.X_param_grid ≠ [] →
      get_nearest_distance sqrt st model =
        min (9999 / 100) (listMin (trainDists sqrt st model))) ∧
    ((∀ d ∈ trainDists sqrt st model, 9999 / 100 ≤ d) →
      get_nearest_distance sqrt st model = 9999 / 100) := by
  refine ⟨get_nearest_distance_eq_foldl sqrt st model, ?_, ?_⟩
  · intro hne
    rw [get_nearest_distance_eq_foldl,
      foldl_min_eq_min_listMin (by
        rw [trainDists]
        intro hmap
        exact hne (List.map_eq_nil_iff.mp hmap))]
  · intro hge
    rw [get_nearest_distance_eq_foldl]
    exact le_antisymm (foldl_min_le_init _ _) (le_foldl_min le_rfl hge)

/-- Witness for C10: with a (constant) external `sqrt` reporting distance
200 for the single training row, the returned value is the capped minimum,
here the sentinel `99.99` itself. -/
theorem c10_witness :
    get_nearest_distance (fun _ => (200 : ℚ))
        ⟨["x"], [(0, 1)], [[0]], [1], true, false, false⟩ (fun _ => 200) =
      min (9999 / 100)
        (listMin (trainDists (fun _ => (200 : ℚ))
          ⟨["x"], [(0, 1)], [[0]], [1], true, false, false⟩ (fun _ => 200))) ∧
    get_nearest_distance (fun _ => (200 : ℚ))
        ⟨["x"], [(0, 1)], [[0]], [1], true, false, false⟩ (fun _ => 200) =
      9999 / 100 := by
  have h := c10_sentinel_capped_minimum (fun _ => (200 : ℚ))
    ⟨["x"], [(0, 1)], [[0]], [1], true, false, false⟩ (fun _ => 200)
  refine ⟨h.2.1 (by simp), h.2.2 ?_⟩
  intro d hd
  simp only [trainDists, List.map_cons, List.map_nil,
    List.mem_singleton] at hd
  rw [hd]
  norm_num

/-- C9 counterexample: a query model at rescaled distance 200 from the only
training row.  The distances-to-rows list is `[200]` (and 200 really is the
square root of the summed square `40000 = (0 - 200)^2` fed to the external
`sqrt`), yet `get_nearest_distance` returns the sentinel `99.99 ≠ 200` —
not the Euclidean distance to the closest row. -/
theorem c9_counterexample :
    get_nearest_distance (fun x => if x = 40000 then 200 else 0)
        ⟨["x"], [(0, 1)], [[0]], [1], true, false, false⟩ (fun _ => 200) =
      9999 / 100 ∧
    trainDists (fun x => if x = 40000 then 200 else 0)
        ⟨["x"], [(0, 1)], [[0]], [1], true, false, false⟩ (fun _ => 200) =
      [200] ∧
    (((0 : ℚ) - (200 - 0) / (1 - 0)) ^ 2 = 40000) ∧
    ((200 : ℚ) ^ 2 = 40000) ∧
    (9999 / 100 : ℚ) ≠ 200 := by
  have hq : return_unit_call
      ⟨["x"], [(0, 1)], [[0]], [1], true, false, false⟩ (fun _ => 200) =
      [200] := by
    norm_num [return_unit_call, List.enum]
  refine ⟨?_, ?_, by norm_num, by norm_num, by norm_num⟩
  · simp only [get_nearest_distance, hq, List.foldl_cons, List.foldl_nil,
      List.zip_cons_cons, List.zip_nil_right, List.map_cons, List.map_nil,
      List.sum_cons, List.sum_nil]
    norm_num
  · simp only [trainDists, hq, List.map_cons, List.map_nil,
      List.zip_cons_cons, List.zip_nil_right, List.sum_cons, List.sum_nil]
    norm_num

/-- C9 as amended: `get_nearest_distance` returns the `min`-fold of the
training-row distances capped by the 99.99 sentinel (statement under C10);
in particular, when the query model's parameter values equal those of a
training record — so its rescaled point coincides with a rescaled grid row —
and the external `sqrt` behaves like a square root at 0 and is nonnegative
on nonnegative inputs, the returned distance is exactly 0. -/
theorem c9_amended_self_distance_zero (sqrt : ℚ → ℚ) (h0 : sqrt 0 = 0)
    (hnn : ∀ x, 0 ≤ x → 0 ≤ sqrt x) (raws : List (List ℚ)) (st : EmuState)
    (hgrid : st.X_param_grid = raws.map fun r => rescale_params r st.paramLimits)
    (model : String → ℚ) (raw : List ℚ) (hraw : raw ∈ raws)
    (hlen : raw.length = st.paramList.length)
    (hlims : st.paramList.length ≤ st.paramLimits.length)
    (hvals : ∀ aa < st.paramList.length,
      raw.getD aa 0 = model (st.paramList.getD aa "")) :
    get_nearest_distance sqrt st model = 0 := by
  have hq : rescale_params raw st.paramLimits = return_unit_call st model := by
    apply list_ext_getD
    · rw [rescale_params_length, return_unit_call_length, hlen]
      exact min_eq_left hlims
    · intro j hj
      have hj' : j < st.paramList.length := by
        rw [rescale_params_length, hlen, min_eq_left hlims] at hj
        exact hj
      rw [rescale_params_getD raw st.paramLimits j (hlen ▸ hj')
          (lt_of_lt_of_le hj' hlims),
        return_unit_call_getD st model j hj', hvals j hj']
  have hmem : (0 : ℚ) ∈ trainDists sqrt st model := by
    rw [trainDists]
    refine List.mem_map.mpr ⟨rescale_params raw st.paramLimits, ?_, ?_⟩
    · rw [hgrid]
      exact List.mem_map_of_mem _ hraw
    · rw [hq, zip_self_sq_sum, h0]
  rw [get_nearest_distance_eq_foldl]
  refine le_antisymm (foldl_min_le_mem hmem _) ?_
  exact le_foldl_min (by norm_num) (trainDists_nonneg sqrt hnn st model)

/-- Witness for C9's amended statement: querying the training record itself
returns distance 0. -/
theorem c9_witness :
    get_nearest_distance (fun x => x)
      ⟨["x"], [((0 : ℚ), 1)], ([[1]] : List (List ℚ)).map
        (fun r => rescale_params r [((0 : ℚ), 1)]), [1], true, false, false⟩
      (fun _ => 1) = 0 :=
  c9_amended_self_distance_zero (fun x => x) rfl (fun _ hx => hx) [[1]]
    ⟨["x"], [((0 : ℚ), 1)], ([[1]] : List (List ℚ)).map
      (fun r => rescale_params r [((0 : ℚ), 1)]), [1], true, false, false⟩
    rfl (fun _ => 1) [1] (by decide) (by decide) (by decide) (by decide)

end LyaEmu
